import Mathlib

/-!
Verification of the dialogue-audio pipeline of `main_for_mobile.py`.

Strings are modelled as `List Char`.  Each Python function is translated
into an executable Lean definition; scanning functions that are not
structurally recursive take an explicit fuel argument which the wrapper
instantiates with the input length (every step consumes at least one
character, so the fuel never runs out on the wrapper's call).
External effects (file system, subprocess, TTS and pydub calls) are
modelled by an explicit environment of oracles.
-/

namespace MyTalk

/-- Python whitespace characters (`str.strip`, `str.split`, regex `\s`),
restricted to the ASCII range the application manipulates. -/
def isPySpace (c : Char) : Bool :=
  c = ' ' || c = '\t' || c = '\n' || c = '\r' || c = '\x0b' || c = '\x0c'

/-- Python `str.strip()`: drop whitespace from both ends. -/
def pyStrip (l : List Char) : List Char :=
  ((l.dropWhile isPySpace).reverse.dropWhile isPySpace).reverse

/-- Index of the first `']'` reachable without crossing a newline
(the regex `.` of `\[.*?\]` does not match `\n`). -/
def findCloseBracket : List Char → Option Nat
  | [] => none
  | c :: rest =>
    if c = ']' then some 0
    else if c = '\n' then none
    else (findCloseBracket rest).map (· + 1)

/-- One pass of `re.sub(r'\[.*?\]', '', text)`: on `[`, skip up to the first
`]` on the same line; otherwise keep the character. -/
def subBracketFuel : Nat → List Char → List Char
  | 0, l => l
  | _ + 1, [] => []
  | fuel + 1, c :: rest =>
    if c = '[' then
      match findCloseBracket rest with
      | some i => subBracketFuel fuel (rest.drop (i + 1))
      | none => c :: subBracketFuel fuel rest
    else c :: subBracketFuel fuel rest

def subBracket (l : List Char) : List Char := subBracketFuel l.length l

/-- Index at which a closing `**` starts, reachable without crossing a
newline (for `\*\*.*?\*\*`). -/
def findBoldClose : List Char → Option Nat
  | [] => none
  | [_] => none
  | a :: b :: rest =>
    if a = '*' && b = '*' then some 0
    else if a = '\n' then none
    else (findBoldClose (b :: rest)).map (· + 1)

/-- `re.sub(r'\*\*.*?\*\*', '', text)`. -/
def subBoldFuel : Nat → List Char → List Char
  | 0, l => l
  | _ + 1, [] => []
  | _ + 1, [c] => [c]
  | fuel + 1, a :: b :: rest =>
    if a = '*' && b = '*' then
      match findBoldClose rest with
      | some i => subBoldFuel fuel (rest.drop (i + 2))
      | none => a :: subBoldFuel fuel (b :: rest)
    else a :: subBoldFuel fuel (b :: rest)

def subBold (l : List Char) : List Char := subBoldFuel l.length l

/-- `re.sub(r'\*([^*]+)\*', r'\1', text)`: unwrap `*...*` around a
non-empty run of non-`*` characters. -/
def subItalicFuel : Nat → List Char → List Char
  | 0, l => l
  | _ + 1, [] => []
  | fuel + 1, c :: rest =>
    if c = '*' then
      match rest.dropWhile (· ≠ '*') with
      | '*' :: tail =>
        if (rest.takeWhile (· ≠ '*')).isEmpty then c :: subItalicFuel fuel rest
        else rest.takeWhile (· ≠ '*') ++ subItalicFuel fuel tail
      | _ => c :: subItalicFuel fuel rest
    else c :: subItalicFuel fuel rest

def subItalic (l : List Char) : List Char := subItalicFuel l.length l

/-- `re.sub(r'^#+\s*', '', text, flags=re.MULTILINE)`.  The boolean tracks
whether the current position is at a line start of the original string
(position 0 or right after a `\n`). -/
def subHeaderFuel : Nat → Bool → List Char → List Char
  | 0, _, l => l
  | _ + 1, _, [] => []
  | fuel + 1, atStart, c :: rest =>
    if atStart && c = '#' then
      let afterHash := rest.dropWhile (· = '#')
      let ws := afterHash.takeWhile isPySpace
      subHeaderFuel fuel (ws.getLast? == some '\n') (afterHash.dropWhile isPySpace)
    else c :: subHeaderFuel fuel (c = '\n') rest

def subHeader (l : List Char) : List Char := subHeaderFuel l.length true l

/-- `text.replace('\n', ' ')` followed by `text.replace('\r', ' ')`. -/
def replaceNewlines (l : List Char) : List Char :=
  (l.map fun c => if c = '\n' then ' ' else c).map fun c => if c = '\r' then ' ' else c

/-- `re.sub(r'\s+', ' ', text)`: collapse whitespace runs to one space. -/
def collapseSpacesFuel : Nat → List Char → List Char
  | 0, l => l
  | _ + 1, [] => []
  | fuel + 1, c :: rest =>
    if isPySpace c then ' ' :: collapseSpacesFuel fuel (rest.dropWhile isPySpace)
    else c :: collapseSpacesFuel fuel rest

def collapseSpaces (l : List Char) : List Char := collapseSpacesFuel l.length l

/-- `clean_text_for_tts`: strip bracketed stage directions, bold and
italic markup, markdown headers, newlines, and extra whitespace. -/
def clean_text_for_tts (text : List Char) : List Char :=
  if text = [] then []
  else
    pyStrip (collapseSpaces (replaceNewlines (subHeader (subItalic (subBold (subBracket text))))))

/-! ## The turn extractor `extract_role_dialogues` -/

/-- One extracted turn: `(role, content, order)` as appended to
`dialogue_sequence`. -/
structure Turn where
  role : String
  content : List Char
  order : Nat
deriving Repr, DecidableEq

/-- The dictionary returned by `extract_role_dialogues`: `first` is the
value at key `'host'` (podcast) or `'a'` (dialog), `second` the value at
key `'guest'` or `'b'`, plus the `'sequence'` list. -/
structure RoleDialogues where
  first : List Char
  second : List Char
  sequence : List Turn
deriving Repr, DecidableEq

/-- Python's substring test `pat in s` on character lists. -/
def containsSub (pat : List Char) : List Char → Bool
  | [] => pat.isEmpty
  | c :: rest => pat.isPrefixOf (c :: rest) || containsSub pat rest

/-- Classification of one raw line by the podcast branch: `some (b, c)`
when the line yields a turn with cleaned content `c`, `b = true` for the
`host` role; `none` when the line is skipped. -/
def podcastClassify (rawLine : List Char) : Option (Bool × List Char) :=
  let line := pyStrip rawLine
  if line = [] then none
  else if ("host:".toList).isPrefixOf (line.map Char.toLower) then
    let content := clean_text_for_tts (pyStrip (line.drop 5))
    if content = [] then none else some (true, content)
  else if ("guest:".toList).isPrefixOf (line.map Char.toLower) then
    let content := clean_text_for_tts (pyStrip (line.drop 6))
    if content = [] then none else some (false, content)
  else if line.contains ':' then
    let role := (pyStrip (line.takeWhile (· ≠ ':'))).map Char.toLower
    let content := clean_text_for_tts (pyStrip ((line.dropWhile (· ≠ ':')).drop 1))
    if containsSub ("host".toList) role || containsSub ("presenter".toList) role ||
        containsSub ("interviewer".toList) role then
      if content = [] then none else some (true, content)
    else if containsSub ("guest".toList) role || containsSub ("interviewee".toList) role ||
        containsSub ("speaker".toList) role then
      if content = [] then none else some (false, content)
    else none
  else none

/-- Classification of one raw line by the dialog branch: `b = true` for
role `a`. -/
def dialogClassify (rawLine : List Char) : Option (Bool × List Char) :=
  let line := pyStrip rawLine
  if line = [] then none
  else if ("a:".toList).isPrefixOf (line.map Char.toLower) then
    let content := clean_text_for_tts (pyStrip (line.drop 2))
    if content = [] then none else some (true, content)
  else if ("b:".toList).isPrefixOf (line.map Char.toLower) then
    let content := clean_text_for_tts (pyStrip (line.drop 2))
    if content = [] then none else some (false, content)
  else if line.contains ':' then
    let role := (pyStrip (line.takeWhile (· ≠ ':'))).map Char.toLower
    let content := clean_text_for_tts (pyStrip ((line.dropWhile (· ≠ ':')).drop 1))
    if containsSub ("a".toList) role || containsSub ("person a".toList) role ||
        containsSub ("speaker a".toList) role then
      if content = [] then none else some (true, content)
    else if containsSub ("b".toList) role || containsSub ("person b".toList) role ||
        containsSub ("speaker b".toList) role then
      if content = [] then none else some (false, content)
    else none
  else none

/-- Loop state of the extraction: the `order` counter, the two per-role
text accumulators, and `dialogue_sequence`. -/
structure ExtState where
  order : Nat
  firstTexts : List (List Char)
  secondTexts : List (List Char)
  seq : List Turn
deriving Repr, DecidableEq

/-- One iteration of the per-line loop: a classified line appends a turn
(carrying the current `order`) and its content to that role's text list. -/
def stepLine (classify : List Char → Option (Bool × List Char)) (r1 r2 : String)
    (st : ExtState) (rawLine : List Char) : ExtState :=
  match classify rawLine with
  | none => st
  | some (b, c) =>
    { order := st.order + 1,
      firstTexts := if b then st.firstTexts ++ [c] else st.firstTexts,
      secondTexts := if b then st.secondTexts else st.secondTexts ++ [c],
      seq := st.seq ++ [⟨if b then r1 else r2, c, st.order⟩] }

/-- The whole per-line loop over `text.split('\n')`. -/
def runExtract (classify : List Char → Option (Bool × List Char)) (r1 r2 : String)
    (lines : List (List Char)) : ExtState :=
  lines.foldl (stepLine classify r1 r2) ⟨0, [], [], []⟩

/-- Python `' '.join(...)` on a list of words. -/
def joinSpace : List (List Char) → List Char
  | [] => []
  | [w] => w
  | w :: ws => w ++ ' ' :: joinSpace ws

/-- End of `extract_role_dialogues`: when no turn was produced, the whole
cleaned text (when non-empty) becomes a single turn for role `r1`;
the role fields are the space-joins of the per-role text lists. -/
def finishExtract (r1 : String) (st : ExtState) (text : List Char) : RoleDialogues :=
  if st.firstTexts = [] && st.secondTexts = [] then
    let cleaned := clean_text_for_tts text
    if cleaned ≠ [] then
      { first := joinSpace [cleaned], second := joinSpace st.secondTexts,
        sequence := [⟨r1, cleaned, 0⟩] }
    else
      { first := joinSpace st.firstTexts, second := joinSpace st.secondTexts,
        sequence := st.seq }
  else
    { first := joinSpace st.firstTexts, second := joinSpace st.secondTexts,
      sequence := st.seq }

/-- `extract_role_dialogues(text, version_type)`: `none` models Python's
`None` (invalid text or unsupported version type). -/
def extract_role_dialogues (text : List Char) (version_type : String) : Option RoleDialogues :=
  if text = [] then none
  else if version_type = "podcast" then
    some (finishExtract "host" (runExtract podcastClassify "host" "guest" (text.splitOn '\n')) text)
  else if version_type = "dialog" then
    some (finishExtract "a" (runExtract dialogClassify "a" "b" (text.splitOn '\n')) text)
  else none

/-- The classifier used for a supported dialogue type. -/
def classifyFor (vt : String) : List Char → Option (Bool × List Char) :=
  if vt = "podcast" then podcastClassify else dialogClassify

/-- First role name of a dialogue type. -/
def firstRole (vt : String) : String := if vt = "podcast" then "host" else "a"

/-- Second role name of a dialogue type. -/
def secondRole (vt : String) : String := if vt = "podcast" then "guest" else "b"

/-- Number of valid `role:` lines of a text: lines that the extractor
recognizes as a role marker and whose cleaned content is non-empty
(exactly the lines that yield a turn in the main loop). -/
def validRoleLineCount (vt : String) (text : List Char) : Nat :=
  ((text.splitOn '\n').filterMap (classifyFor vt)).length

/-! ## `SimpleStorage.sanitize_filename` -/

/-- The safe-character alphabet of `sanitize_filename`. -/
def safeChars : List Char :=
  "abcdefghijklmnopqrstuvwxyzABCDEFGHIJKLMNOPQRSTUVWXYZ0123456789-_() ".toList

/-- Python `str.split()` (no argument): split on whitespace runs,
dropping empty pieces. -/
def pySplitFuel : Nat → List Char → List (List Char)
  | 0, _ => []
  | _ + 1, [] => []
  | fuel + 1, c :: rest =>
    if isPySpace c then pySplitFuel fuel rest
    else (c :: rest.takeWhile (fun ch => !isPySpace ch)) ::
      pySplitFuel fuel (rest.dropWhile (fun ch => !isPySpace ch))

def pySplit (l : List Char) : List (List Char) := pySplitFuel l.length l

/-- `sanitize_filename`: keep safe characters, normalize spaces, truncate
to 50 characters, strip, fall back to "Untitled". -/
def sanitize_filename (filename : List Char) : List Char :=
  let safe := filename.filter (fun c => safeChars.contains c)
  let normalized := (joinSpace (pySplit safe)).take 50
  let out := pyStrip normalized
  if out = [] then "Untitled".toList else out

/-! ## The audio pipeline

External effects are collected in an environment of oracles: flags for
the optional libraries, the file system, the outcome of the single
ffmpeg subprocess run, the TTS call, and pydub decoding. -/

/-- Outcome of `subprocess.run`: completed with a return code, raised
`TimeoutExpired`, or raised some other exception. -/
inductive RunOutcome where
  | completed (returncode : Int)
  | timedOut
  | raised
deriving Repr, DecidableEq

/-- A pydub `AudioSegment` is a concatenation of atoms. -/
inductive Atom where
  | silence (ms : Nat)
  | clip (path : String)
deriving Repr, DecidableEq

abbrev Audio := List Atom

/-- Oracles for everything outside the program. -/
structure AudioEnv where
  ffmpegAvailable : Bool
  pydubAvailable : Bool
  fileExists : String → Bool
  fileSize : String → Nat
  /-- Run of the ffmpeg subprocess given the manifest entries and the
  timeout in seconds. -/
  ffmpegRun : List String → Nat → RunOutcome
  /-- `generate_audio_with_openai_tts` for a given content and voice:
  the produced temp-file path, or `None` on failure. -/
  tts : List Char → String → Option String
  /-- Whether `AudioSegment.from_mp3` succeeds on a file. -/
  decodeOk : String → Bool
  /-- Duration in ms of a decoded clip. -/
  clipDuration : String → Nat
  /-- Name of the temp file passed to ffmpeg as merge output. -/
  tempMergedName : String
  /-- Name of the temp file pydub exports to. -/
  pydubExportName : String

/-- `merge_audio_files_ffmpeg`: returns the boolean result and the
manifest entries written to the concat file (the existing inputs, in
order).  The subprocess runs with the fixed 60-second timeout; a nonzero
exit code, a timeout, or an exception yields `false`, never a raise. -/
def merge_audio_files_ffmpeg (env : AudioEnv) (audioFiles : List String) :
    Bool × List String :=
  if !env.ffmpegAvailable then (false, [])
  else if audioFiles = [] then (false, [])
  else
    let manifest := audioFiles.filter env.fileExists
    match env.ffmpegRun manifest 60 with
    | .completed rc => (rc == 0, manifest)
    | .timedOut => (false, manifest)
    | .raised => (false, manifest)

/-- Duration of an audio segment in ms. -/
def audioLen (env : AudioEnv) : Audio → Nat
  | [] => 0
  | .silence ms :: rest => ms + audioLen env rest
  | .clip p :: rest => env.clipDuration p + audioLen env rest

/-- The loop of `merge_audio_files_pydub`: for each existing file, append
a 1000 ms silence when the list index is positive, then the decoded clip;
a decode failure skips the clip (after the silence was appended). -/
def pydubLoop (env : AudioEnv) : Nat → Audio → List String → Audio
  | _, acc, [] => acc
  | i, acc, f :: rest =>
    if env.fileExists f then
      if env.decodeOk f then
        pydubLoop env (i + 1) ((if 0 < i then acc ++ [.silence 1000] else acc) ++ [.clip f]) rest
      else pydubLoop env (i + 1) (if 0 < i then acc ++ [.silence 1000] else acc) rest
    else pydubLoop env (i + 1) acc rest

/-- The audio segment `combined_audio` built by `merge_audio_files_pydub`. -/
def pydubCombined (env : AudioEnv) (audioFiles : List String) : Audio :=
  pydubLoop env 0 [] audioFiles

/-- `merge_audio_files_pydub`: `none` when pydub is unavailable, the input
is empty, or the combined segment has zero length; otherwise the exported
temp-file path. -/
def merge_audio_files_pydub (env : AudioEnv) (audioFiles : List String) : Option String :=
  if !env.pydubAvailable then none
  else if audioFiles = [] then none
  else if 0 < audioLen env (pydubCombined env audioFiles) then some env.pydubExportName
  else none

/-! ## `generate_multi_voice_audio` -/

/-- An entry of `sentence_audio_files`. -/
structure SentenceAudio where
  role : String
  content : List Char
  order : Nat
  audio_file : String
  voice : String
  index : Nat
deriving Repr, DecidableEq

/-- `role_names.get(role, voice1)` with
`role_names = {'host': voice1, 'guest': voice2, 'a': voice1, 'b': voice2}`. -/
def roleVoice (voice1 voice2 role : String) : String :=
  if role = "host" then voice1
  else if role = "guest" then voice2
  else if role = "a" then voice1
  else if role = "b" then voice2
  else voice1

/-- Outcome of the synthesis of the `i`-th turn: skipped when the content
is blank, failed when the TTS call returns nothing or the produced file
does not exist, otherwise the recorded `sentence_audio_files` entry. -/
def turnSynthResult (env : AudioEnv) (voice1 voice2 : String) (i : Nat) (t : Turn) :
    Option SentenceAudio :=
  if pyStrip t.content = [] then none
  else
    match env.tts t.content (roleVoice voice1 voice2 t.role) with
    | none => none
    | some p =>
      if env.fileExists p then
        some ⟨t.role, t.content, t.order, p, roleVoice voice1 voice2 t.role, i⟩
      else none

/-- The per-turn synthesis loop over the enumerated dialogue sequence. -/
def synthLoop (env : AudioEnv) (voice1 voice2 : String) : Nat → List Turn → List SentenceAudio
  | _, [] => []
  | i, t :: rest =>
    match turnSynthResult env voice1 voice2 i t with
    | none => synthLoop env voice1 voice2 (i + 1) rest
    | some sa => sa :: synthLoop env voice1 voice2 (i + 1) rest

/-- Stable insertion (by `index`) used to model Python's stable
`list.sort(key=lambda x: x['index'])`. -/
def insertByIndex (x : SentenceAudio) : List SentenceAudio → List SentenceAudio
  | [] => [x]
  | y :: ys => if x.index < y.index then x :: y :: ys else y :: insertByIndex x ys

/-- Stable sort by `index`. -/
def sortByIndex : List SentenceAudio → List SentenceAudio
  | [] => []
  | x :: xs => insertByIndex x (sortByIndex xs)

/-- Whether the primary (ffmpeg) path produced a non-empty merged file:
`merge_audio_files_ffmpeg` succeeded and the output temp file exists with
positive size. -/
def primarySucceeded (env : AudioEnv) (paths : List String) : Bool :=
  env.ffmpegAvailable && (merge_audio_files_ffmpeg env paths).1 &&
    env.fileExists env.tempMergedName && decide (0 < env.fileSize env.tempMergedName)

/-- The concatenation stage of `generate_multi_voice_audio`: the merged
path (if any) and whether the pydub fallback was attempted. -/
def mergeStage (env : AudioEnv) (paths : List String) : Option String × Bool :=
  let primaryMerged : Option String :=
    if primarySucceeded env paths then some env.tempMergedName else none
  if primaryMerged = none && env.pydubAvailable then
    (merge_audio_files_pydub env paths, true)
  else (primaryMerged, false)

/-- The dictionary returned on the two-voice path: the per-sentence
results, the optional merged track, and the per-role representative
files. -/
structure MultiVoiceResult where
  sentences : List SentenceAudio
  merged : Option String
  role1File : Option String
  role2File : Option String
deriving Repr, DecidableEq

/-- Return value of `generate_multi_voice_audio`: a dictionary on the
two-voice path, a bare audio path on the single-voice paths. -/
inductive GenAudioResult where
  | multi (r : MultiVoiceResult)
  | single (path : String)
deriving Repr, DecidableEq

/-- `generate_multi_voice_audio(text, api_key, voice1, voice2, version_type)`.
`none` models Python's `None`. -/
def generate_multi_voice_audio (env : AudioEnv) (text : List Char)
    (voice1 voice2 version_type : String) : Option GenAudioResult :=
  if pyStrip text = [] then none
  else if version_type = "podcast" || version_type = "dialog" then
    match extract_role_dialogues text version_type with
    | none =>
      let cleaned := clean_text_for_tts text
      if cleaned ≠ [] then (env.tts cleaned voice1).map .single else none
    | some rd =>
      if rd.sequence = [] then none
      else
        let sentences := sortByIndex (synthLoop env voice1 voice2 0 rd.sequence)
        if sentences = [] then none
        else
          let paths := sentences.map (·.audio_file)
          let merged := (mergeStage env paths).1
          let role1 := if version_type = "podcast" then "host" else "a"
          let role2 := if version_type = "podcast" then "guest" else "b"
          some (.multi
            { sentences := sentences, merged := merged,
              role1File := (sentences.find? (fun sa => sa.role == role1)).map (·.audio_file),
              role2File := (sentences.find? (fun sa => sa.role == role2)).map (·.audio_file) })
  else
    let cleaned := clean_text_for_tts text
    if cleaned = [] then none
    else (env.tts cleaned (if version_type = "ted" then voice2 else voice1)).map .single

/-! ## Lemmas about the extractor -/

/-- The turns produced from the classified lines `ps`, numbering orders
from `k`. -/
def mkTurns (r1 r2 : String) : Nat → List (Bool × List Char) → List Turn
  | _, [] => []
  | k, (b, c) :: ps => ⟨if b then r1 else r2, c, k⟩ :: mkTurns r1 r2 (k + 1) ps

lemma mkTurns_length (r1 r2 : String) (k : Nat) (ps : List (Bool × List Char)) :
    (mkTurns r1 r2 k ps).length = ps.length := by
  induction ps generalizing k with
  | nil => rfl
  | cons p ps ih => obtain ⟨b, c⟩ := p; simp [mkTurns, ih]

lemma mkTurns_map_order (r1 r2 : String) (k : Nat) (ps : List (Bool × List Char)) :
    (mkTurns r1 r2 k ps).map Turn.order = List.range' k ps.length := by
  induction ps generalizing k with
  | nil => rfl
  | cons p ps ih => obtain ⟨b, c⟩ := p; simp [mkTurns, List.range', ih]

lemma mkTurns_roles (r1 r2 : String) (k : Nat) (ps : List (Bool × List Char)) :
    ∀ t ∈ mkTurns r1 r2 k ps, t.role = r1 ∨ t.role = r2 := by
  induction ps generalizing k with
  | nil => simp [mkTurns]
  | cons p ps ih =>
    obtain ⟨b, c⟩ := p
    intro t ht
    simp only [mkTurns, List.mem_cons] at ht
    rcases ht with rfl | h
    · cases b <;> simp
    · exact ih (k + 1) t h

lemma mkTurns_filter_first (r1 r2 : String) (k : Nat) (ps : List (Bool × List Char))
    (h : r1 ≠ r2) :
    ((mkTurns r1 r2 k ps).filter (fun t => t.role == r1)).map Turn.content =
      (ps.filter (·.1)).map (·.2) := by
  induction ps generalizing k with
  | nil => rfl
  | cons p ps ih =>
    obtain ⟨b, c⟩ := p
    cases b <;> simp [mkTurns, List.filter_cons, h, Ne.symm h, ih]

lemma mkTurns_filter_second (r1 r2 : String) (k : Nat) (ps : List (Bool × List Char))
    (h : r1 ≠ r2) :
    ((mkTurns r1 r2 k ps).filter (fun t => t.role == r2)).map Turn.content =
      (ps.filter (fun p => !p.1)).map (·.2) := by
  induction ps generalizing k with
  | nil => rfl
  | cons p ps ih =>
    obtain ⟨b, c⟩ := p
    cases b <;> simp [mkTurns, List.filter_cons, h, Ne.symm h, ih]

lemma foldl_stepLine (classify : List Char → Option (Bool × List Char)) (r1 r2 : String)
    (lines : List (List Char)) (st : ExtState) :
    lines.foldl (stepLine classify r1 r2) st =
      { order := st.order + (lines.filterMap classify).length,
        firstTexts := st.firstTexts ++ ((lines.filterMap classify).filter (·.1)).map (·.2),
        secondTexts :=
          st.secondTexts ++ ((lines.filterMap classify).filter (fun p => !p.1)).map (·.2),
        seq := st.seq ++ mkTurns r1 r2 st.order (lines.filterMap classify) } := by
  induction lines generalizing st with
  | nil => simp [mkTurns]
  | cons l ls ih =>
    simp only [List.foldl_cons, List.filterMap_cons]
    cases h : classify l with
    | none => rw [ih]; simp [stepLine, h]
    | some p =>
      obtain ⟨b, c⟩ := p
      rw [ih]
      cases b <;>
        simp [stepLine, h, mkTurns, List.append_assoc] <;>
        omega

lemma filter_both_empty (ps : List (Bool × List Char)) :
    (ps.filter (·.1) = [] ∧ ps.filter (fun p => !p.1) = []) ↔ ps = [] := by
  constructor
  · rintro ⟨h1, h2⟩
    cases ps with
    | nil => rfl
    | cons p ps =>
      obtain ⟨b, c⟩ := p
      cases b <;> simp [List.filter_cons] at h1 h2
  · rintro rfl; simp

lemma extract_cases (text : List Char) (vt : String) (r : RoleDialogues)
    (h : extract_role_dialogues text vt = some r) :
    text ≠ [] ∧
      ((vt = "podcast" ∧
          r = finishExtract "host"
            (runExtract podcastClassify "host" "guest" (text.splitOn '\n')) text) ∨
       (vt = "dialog" ∧
          r = finishExtract "a"
            (runExtract dialogClassify "a" "b" (text.splitOn '\n')) text)) := by
  unfold extract_role_dialogues at h
  by_cases hne : text = []
  · simp [hne] at h
  · by_cases hp : vt = "podcast"
    · refine ⟨hne, Or.inl ⟨hp, ?_⟩⟩
      simp only [hne, hp, if_neg, if_pos, if_true, if_false, reduceIte] at h
      exact (Option.some_inj.mp h).symm
    · by_cases hd : vt = "dialog"
      · refine ⟨hne, Or.inr ⟨hd, ?_⟩⟩
        simp only [hne, hp, hd, if_neg, if_pos, if_true, if_false, reduceIte] at h
        exact (Option.some_inj.mp h).symm
      · simp [hne, hp, hd] at h

/-- Joint behaviour of the per-line loop and the function's tail for a
fixed classifier: either some line was classified and the result is built
from the classified lines in order, or none was and the fallback produced
one turn (non-empty cleaned text) or no turn (empty cleaned text). -/
lemma finish_run_spec (classify : List Char → Option (Bool × List Char)) (r1 r2 : String)
    (lines : List (List Char)) (text : List Char) :
    (lines.filterMap classify ≠ [] ∧
       (finishExtract r1 (runExtract classify r1 r2 lines) text).sequence =
         mkTurns r1 r2 0 (lines.filterMap classify) ∧
       (finishExtract r1 (runExtract classify r1 r2 lines) text).first =
         joinSpace (((lines.filterMap classify).filter (·.1)).map (·.2)) ∧
       (finishExtract r1 (runExtract classify r1 r2 lines) text).second =
         joinSpace (((lines.filterMap classify).filter (fun p => !p.1)).map (·.2))) ∨
    (lines.filterMap classify = [] ∧ clean_text_for_tts text ≠ [] ∧
       (finishExtract r1 (runExtract classify r1 r2 lines) text).sequence =
         [⟨r1, clean_text_for_tts text, 0⟩] ∧
       (finishExtract r1 (runExtract classify r1 r2 lines) text).first =
         clean_text_for_tts text ∧
       (finishExtract r1 (runExtract classify r1 r2 lines) text).second = []) ∨
    (lines.filterMap classify = [] ∧ clean_text_for_tts text = [] ∧
       (finishExtract r1 (runExtract classify r1 r2 lines) text).sequence = [] ∧
       (finishExtract r1 (runExtract classify r1 r2 lines) text).first = [] ∧
       (finishExtract r1 (runExtract classify r1 r2 lines) text).second = []) := by
  rw [runExtract, foldl_stepLine]
  dsimp only
  generalize lines.filterMap classify = ps
  cases ps with
  | nil =>
    simp only [List.filter_nil, List.map_nil, List.nil_append, mkTurns]
    by_cases hcl : clean_text_for_tts text = []
    · refine Or.inr (Or.inr ⟨by trivial, hcl, ?_, ?_, ?_⟩) <;>
        simp [finishExtract, hcl, joinSpace]
    · refine Or.inr (Or.inl ⟨by trivial, hcl, ?_, ?_, ?_⟩) <;>
        simp [finishExtract, hcl, joinSpace]
  | cons p ps =>
    have hfilters : ¬((((p :: ps).filter (·.1)).map (·.2) : List (List Char)) = [] ∧
        (((p :: ps).filter (fun q => !q.1)).map (·.2) : List (List Char)) = []) := by
      rintro ⟨h1, h2⟩
      simp only [List.map_eq_nil_iff] at h1 h2
      exact (List.cons_ne_nil p ps) ((filter_both_empty (p :: ps)).mp ⟨h1, h2⟩)
    refine Or.inl ⟨List.cons_ne_nil p ps, ?_, ?_, ?_⟩ <;>
      · rw [finishExtract, if_neg (by simpa using hfilters)]
        simp

/-- Global shape of a successful extraction, stated through
`classifyFor`, `firstRole` and `secondRole`. -/
lemma extract_structure (text : List Char) (vt : String) (r : RoleDialogues)
    (h : extract_role_dialogues text vt = some r) :
    ((text.splitOn '\n').filterMap (classifyFor vt) ≠ [] ∧
       r.sequence =
         mkTurns (firstRole vt) (secondRole vt) 0
           ((text.splitOn '\n').filterMap (classifyFor vt)) ∧
       r.first =
         joinSpace ((((text.splitOn '\n').filterMap (classifyFor vt)).filter (·.1)).map (·.2)) ∧
       r.second =
         joinSpace
           ((((text.splitOn '\n').filterMap (classifyFor vt)).filter (fun p => !p.1)).map (·.2))) ∨
    ((text.splitOn '\n').filterMap (classifyFor vt) = [] ∧ clean_text_for_tts text ≠ [] ∧
       r.sequence = [⟨firstRole vt, clean_text_for_tts text, 0⟩] ∧
       r.first = clean_text_for_tts text ∧ r.second = []) ∨
    ((text.splitOn '\n').filterMap (classifyFor vt) = [] ∧ clean_text_for_tts text = [] ∧
       r.sequence = [] ∧ r.first = [] ∧ r.second = []) := by
  obtain ⟨-, hcase⟩ := extract_cases text vt r h
  rcases hcase with ⟨hvt, hr⟩ | ⟨hvt, hr⟩
  · have hc : classifyFor vt = podcastClassify := by simp [classifyFor, hvt]
    have h1 : firstRole vt = "host" := by simp [firstRole, hvt]
    have h2 : secondRole vt = "guest" := by simp [secondRole, hvt]
    rw [hc, h1, h2, hr]
    exact finish_run_spec podcastClassify "host" "guest" (text.splitOn '\n') text
  · have hvt' : vt ≠ "podcast" := by rw [hvt]; decide
    have hc : classifyFor vt = dialogClassify := by simp [classifyFor, hvt']
    have h1 : firstRole vt = "a" := by simp [firstRole, hvt']
    have h2 : secondRole vt = "b" := by simp [secondRole, hvt']
    rw [hc, h1, h2, hr]
    exact finish_run_spec dialogClassify "a" "b" (text.splitOn '\n') text

/-! ## Claims about the extractor -/

lemma extract_some_of_ne (text : List Char) (vt : String)
    (hvt : vt = "podcast" ∨ vt = "dialog") (hne : text ≠ []) :
    ∃ r, extract_role_dialogues text vt = some r := by
  rcases hvt with h | h <;> subst h
  · exact ⟨_, by rw [extract_role_dialogues, if_neg hne, if_pos rfl]⟩
  · exact ⟨_, by rw [extract_role_dialogues, if_neg hne, if_neg (by decide), if_pos rfl]⟩

/-- C1 (counterexample): the claim quantifies over every N, including
N = 0; on the input "hello" there are zero valid role lines, yet the
extractor returns a sequence of one turn (the deliberate fallback of C2),
not zero. -/
theorem C1_counterexample :
    validRoleLineCount "podcast" ("hello".toList) = 0 ∧
      (extract_role_dialogues ("hello".toList) "podcast").map (fun r => r.sequence.length) =
        some 1 := by
  decide

/-- C1 (amended: at least one valid role line): for every dialogue text
and supported dialogue type, if the text contains N ≥ 1 valid role lines
then the extractor returns a sequence of exactly N turns, built from the
classified lines in their original order. -/
theorem C1_turn_count_and_order (text : List Char) (vt : String)
    (hvt : vt = "podcast" ∨ vt = "dialog")
    (hN : 1 ≤ validRoleLineCount vt text) :
    ∃ r, extract_role_dialogues text vt = some r ∧
      r.sequence.length = validRoleLineCount vt text ∧
      r.sequence =
        mkTurns (firstRole vt) (secondRole vt) 0
          ((text.splitOn '\n').filterMap (classifyFor vt)) := by
  have hne : text ≠ [] := by
    rintro rfl
    rcases hvt with h | h <;> rw [h] at hN <;> exact absurd hN (by decide)
  have hps : (text.splitOn '\n').filterMap (classifyFor vt) ≠ [] := by
    intro h0
    rw [validRoleLineCount, h0] at hN
    exact absurd hN (by decide)
  obtain ⟨r, hr⟩ := extract_some_of_ne text vt hvt hne
  rcases extract_structure text vt r hr with ⟨-, hseq, -, -⟩ | ⟨h0, -⟩ | ⟨h0, -⟩
  · exact ⟨r, hr, by rw [hseq, validRoleLineCount, mkTurns_length], hseq⟩
  · exact absurd h0 hps
  · exact absurd h0 hps

/-- Witness for C1 at a concrete input with one valid role line. -/
theorem C1_witness :
    ∃ r, extract_role_dialogues ("host: hi".toList) "podcast" = some r ∧
      r.sequence.length = validRoleLineCount "podcast" ("host: hi".toList) ∧
      r.sequence =
        mkTurns (firstRole "podcast") (secondRole "podcast") 0
          ((("host: hi".toList).splitOn '\n').filterMap (classifyFor "podcast")) :=
  C1_turn_count_and_order ("host: hi".toList) "podcast" (Or.inl rfl) (by decide)

/-- C2 (counterexample): "[x]" is a non-empty text of a supported type
with no role markers, but cleaning removes everything, so the extractor
returns zero turns instead of the claimed single turn. -/
theorem C2_counterexample :
    ("[x]".toList : List Char) ≠ [] ∧
      validRoleLineCount "podcast" ("[x]".toList) = 0 ∧
      (extract_role_dialogues ("[x]".toList) "podcast").map (fun r => r.sequence.length) =
        some 0 := by
  decide

/-- C2 (amended: the cleaned text must also be non-empty): for every
non-empty input of a supported dialogue type whose cleaned text is
non-empty and in which no role markers are found, the extractor returns
normally with exactly one turn holding the full cleaned text, assigned to
the first role. -/
theorem C2_fallback_single_turn (text : List Char) (vt : String)
    (hvt : vt = "podcast" ∨ vt = "dialog") (hne : text ≠ [])
    (hclean : clean_text_for_tts text ≠ [])
    (hN : validRoleLineCount vt text = 0) :
    ∃ r, extract_role_dialogues text vt = some r ∧
      r.sequence = [⟨firstRole vt, clean_text_for_tts text, 0⟩] := by
  have hps : (text.splitOn '\n').filterMap (classifyFor vt) = [] := by
    rw [validRoleLineCount, List.length_eq_zero] at hN
    exact hN
  obtain ⟨r, hr⟩ := extract_some_of_ne text vt hvt hne
  rcases extract_structure text vt r hr with ⟨hn0, -⟩ | ⟨-, -, hseq, -, -⟩ | ⟨-, hcl, -⟩
  · exact absurd hps hn0
  · exact ⟨r, hr, hseq⟩
  · exact absurd hcl hclean

/-- Witness for C2 at a concrete input without role markers. -/
theorem C2_witness :
    ∃ r, extract_role_dialogues ("hello".toList) "podcast" = some r ∧
      r.sequence = [⟨firstRole "podcast", clean_text_for_tts ("hello".toList), 0⟩] :=
  C2_fallback_single_turn ("hello".toList) "podcast" (Or.inl rfl) (by decide) (by decide)
    (by decide)

/-- C3: every successful extraction yields turns whose roles come from
the two-role set of the dialogue type, and whose `order` fields are
exactly 0, 1, ..., length-1, i.e. each turn's position in the list. -/
theorem C3_turn_invariants (text : List Char) (vt : String) (r : RoleDialogues)
    (h : extract_role_dialogues text vt = some r) :
    r.sequence.map Turn.order = List.range r.sequence.length ∧
      r.sequence.all (fun t => t.role == firstRole vt || t.role == secondRole vt) = true := by
  rcases extract_structure text vt r h with ⟨-, hseq, -, -⟩ | ⟨-, -, hseq, -, -⟩ |
    ⟨-, -, hseq, -, -⟩
  · constructor
    · rw [hseq, mkTurns_map_order, mkTurns_length, List.range_eq_range']
    · rw [hseq, List.all_eq_true]
      intro t ht
      rcases mkTurns_roles _ _ _ _ t ht with h1 | h1 <;> simp [h1]
  · rw [hseq]; exact ⟨by simp [List.range_succ], by simp⟩
  · rw [hseq]; exact ⟨by simp, by simp⟩

/-- Witness for C3 at a concrete input. -/
theorem C3_witness :
    (([Turn.mk "host" "hi".toList 0, Turn.mk "guest" "yo".toList 1] : List Turn).map Turn.order =
        List.range ([Turn.mk "host" "hi".toList 0, Turn.mk "guest" "yo".toList 1] : List Turn).length) ∧
      (([Turn.mk "host" "hi".toList 0, Turn.mk "guest" "yo".toList 1] : List Turn).all
          (fun t => t.role == firstRole "podcast" || t.role == secondRole "podcast")) = true :=
  C3_turn_invariants ("host: hi\nguest: yo".toList) "podcast"
    ⟨"hi".toList, "yo".toList, [⟨"host", "hi".toList, 0⟩, ⟨"guest", "yo".toList, 1⟩]⟩
    (by decide)

/-- C10: the per-role fields of a successful extraction are the space
joins of the texts of exactly the sequence turns carrying that role, in
order. -/
theorem C10_role_fields (text : List Char) (vt : String) (r : RoleDialogues)
    (h : extract_role_dialogues text vt = some r) :
    r.first = joinSpace ((r.sequence.filter (fun t => t.role == firstRole vt)).map Turn.content) ∧
      r.second =
        joinSpace ((r.sequence.filter (fun t => t.role == secondRole vt)).map Turn.content) := by
  have hrr : firstRole vt ≠ secondRole vt := by
    rcases extract_cases text vt r h with ⟨-, ⟨hvt, -⟩ | ⟨hvt, -⟩⟩ <;> rw [hvt] <;> decide
  rcases extract_structure text vt r h with ⟨-, hseq, hfst, hsnd⟩ | ⟨-, -, hseq, hfst, hsnd⟩ |
    ⟨-, -, hseq, hfst, hsnd⟩
  · rw [hseq, hfst, hsnd, mkTurns_filter_first _ _ _ _ hrr, mkTurns_filter_second _ _ _ _ hrr]
    exact ⟨rfl, rfl⟩
  · rw [hseq, hfst, hsnd]
    constructor
    · simp [List.filter_cons, joinSpace]
    · simp [List.filter_cons, joinSpace, Ne.symm, hrr]
  · rw [hseq, hfst, hsnd]
    exact ⟨by simp [joinSpace], by simp [joinSpace]⟩

/-- Witness for C10 at a concrete input. -/
theorem C10_witness :
    ("hi".toList =
        joinSpace ((([Turn.mk "host" "hi".toList 0, Turn.mk "guest" "yo".toList 1] : List Turn).filter
            (fun t => t.role == firstRole "podcast")).map Turn.content)) ∧
      ("yo".toList =
        joinSpace ((([Turn.mk "host" "hi".toList 0, Turn.mk "guest" "yo".toList 1] : List Turn).filter
            (fun t => t.role == secondRole "podcast")).map Turn.content)) :=
  C10_role_fields ("host: hi\nguest: yo".toList) "podcast"
    ⟨"hi".toList, "yo".toList, [⟨"host", "hi".toList, 0⟩, ⟨"guest", "yo".toList, 1⟩]⟩
    (by decide)

/-! ## Claims about the audio pipeline -/

/-- C4: in the concatenation stage of `generate_multi_voice_audio`, the
pydub fallback is attempted exactly when the primary ffmpeg path did not
produce a non-empty merged file (unavailable, failed, or empty output)
and pydub is available; in particular it is never attempted when the
primary path produced a non-empty merged file. -/
theorem C4_fallback_policy (env : AudioEnv) (paths : List String) :
    (mergeStage env paths).2 = (!primarySucceeded env paths && env.pydubAvailable) := by
  rw [mergeStage]
  cases h : primarySucceeded env paths <;>
    cases hp : env.pydubAvailable <;> simp [h, hp]

/-- Enumeration of a list with indices starting at `i`. -/
def indexed {α : Type} : Nat → List α → List (Nat × α)
  | _, [] => []
  | i, a :: as => (i, a) :: indexed (i + 1) as

lemma synthLoop_eq_filterMap (env : AudioEnv) (v1 v2 : String) (i : Nat) (seq : List Turn) :
    synthLoop env v1 v2 i seq =
      (indexed i seq).filterMap (fun p => turnSynthResult env v1 v2 p.1 p.2) := by
  induction seq generalizing i with
  | nil => rfl
  | cons t rest ih =>
    rw [synthLoop, indexed, List.filterMap_cons]
    cases h : turnSynthResult env v1 v2 i t <;> simp [h, ih]

lemma turnSynthResult_index (env : AudioEnv) (v1 v2 : String) (i : Nat) (t : Turn)
    (sa : SentenceAudio) (h : turnSynthResult env v1 v2 i t = some sa) : sa.index = i := by
  rw [turnSynthResult] at h
  by_cases h0 : pyStrip t.content = []
  · rw [if_pos h0] at h; cases h
  · rw [if_neg h0] at h
    cases htts : env.tts t.content (roleVoice v1 v2 t.role) with
    | none => rw [htts] at h; exact Option.noConfusion h
    | some p =>
      rw [htts] at h
      dsimp only at h
      by_cases hex : env.fileExists p = true
      · rw [if_pos hex] at h; cases Option.some_inj.mp h; rfl
      · rw [if_neg hex] at h; cases h

lemma synthLoop_index_ge (env : AudioEnv) (v1 v2 : String) (i : Nat) (seq : List Turn) :
    ∀ sa ∈ synthLoop env v1 v2 i seq, i ≤ sa.index := by
  induction seq generalizing i with
  | nil => simp [synthLoop]
  | cons t rest ih =>
    rw [synthLoop]
    cases h : turnSynthResult env v1 v2 i t with
    | none => exact fun sa hsa => le_trans (Nat.le_succ i) (ih (i + 1) sa hsa)
    | some sa0 =>
      intro sa hsa
      rcases List.mem_cons.mp hsa with rfl | hsa'
      · exact le_of_eq (turnSynthResult_index env v1 v2 i t sa h).symm
      · exact le_trans (Nat.le_succ i) (ih (i + 1) sa hsa')

lemma synthLoop_pairwise (env : AudioEnv) (v1 v2 : String) (i : Nat) (seq : List Turn) :
    List.Pairwise (fun a b => a.index < b.index) (synthLoop env v1 v2 i seq) := by
  induction seq generalizing i with
  | nil => simp [synthLoop]
  | cons t rest ih =>
    rw [synthLoop]
    cases h : turnSynthResult env v1 v2 i t with
    | none => exact ih (i + 1)
    | some sa0 =>
      refine List.pairwise_cons.mpr ⟨fun sa hsa => ?_, ih (i + 1)⟩
      have h1 : sa0.index = i := turnSynthResult_index env v1 v2 i t sa0 h
      have h2 : i + 1 ≤ sa.index := synthLoop_index_ge env v1 v2 (i + 1) rest sa hsa
      omega

/-- C6: the per-turn synthesis loop is exactly an index-aware filter of
the dialogue sequence: the results are precisely the turns whose
synthesis call succeeded, in their original order (failures are skipped
without affecting later turns), and their loop indices are strictly
increasing. -/
theorem C6_per_turn_failure_skipped (env : AudioEnv) (v1 v2 : String) (seq : List Turn) :
    synthLoop env v1 v2 0 seq =
      (indexed 0 seq).filterMap (fun p => turnSynthResult env v1 v2 p.1 p.2) ∧
    List.Pairwise (fun a b => a.index < b.index) (synthLoop env v1 v2 0 seq) :=
  ⟨synthLoop_eq_filterMap env v1 v2 0 seq, synthLoop_pairwise env v1 v2 0 seq⟩

/-- Environment where the external tool reports success (exit code 0)
but every file — including the merge output — has size 0. -/
def envEmptyOut : AudioEnv where
  ffmpegAvailable := true
  pydubAvailable := true
  fileExists := fun _ => true
  fileSize := fun _ => 0
  ffmpegRun := fun _ _ => .completed 0
  tts := fun _ _ => none
  decodeOk := fun _ => true
  clipDuration := fun _ => 0
  tempMergedName := "merged.mp3"
  pydubExportName := "pydub.mp3"

/-- C7 (counterexample): when the tool exits 0 but the resulting output
file is empty, `merge_audio_files_ffmpeg` returns `True`, not the claimed
`False`; the emptiness check lives in the caller (`primarySucceeded` is
false there). -/
theorem C7_counterexample :
    (merge_audio_files_ffmpeg envEmptyOut ["a.mp3"]).1 = true ∧
      envEmptyOut.fileSize envEmptyOut.tempMergedName = 0 ∧
      primarySucceeded envEmptyOut ["a.mp3"] = false := by
  decide

/-- C7 (amended): `merge_audio_files_ffmpeg` writes a manifest listing
the existing turn audio files in order and runs the tool with the fixed
60-second timeout; it returns `False` (never raises) on a nonzero exit
code, a timeout or a tool exception, and returns `True` exactly on exit
code 0 — even when the output is empty: that check is performed by the
caller, where the primary path counts as successful only with a
positive-size output. -/
theorem C7_ffmpeg_boolean_failure (env : AudioEnv) (files : List String)
    (hav : env.ffmpegAvailable = true) (hne : files ≠ []) :
    (merge_audio_files_ffmpeg env files).2 = files.filter env.fileExists ∧
      ((merge_audio_files_ffmpeg env files).1 = true ↔
        env.ffmpegRun (files.filter env.fileExists) 60 = .completed 0) ∧
      (primarySucceeded env files = true → 0 < env.fileSize env.tempMergedName) := by
  refine ⟨?_, ?_, ?_⟩
  · rw [merge_audio_files_ffmpeg, hav]
    simp only [Bool.not_true, Bool.false_eq_true, if_false, if_neg hne]
    cases env.ffmpegRun (files.filter env.fileExists) 60 <;> rfl
  · rw [merge_audio_files_ffmpeg, hav]
    simp only [Bool.not_true, Bool.false_eq_true, if_false, if_neg hne]
    cases h : env.ffmpegRun (files.filter env.fileExists) 60 <;> simp
  · intro hp
    rw [primarySucceeded] at hp
    simp only [Bool.and_eq_true, decide_eq_true_eq] at hp
    exact hp.2

/-- Witness for C7 at a concrete environment and input. -/
theorem C7_witness :
    (merge_audio_files_ffmpeg envEmptyOut ["b.mp3"]).2 =
        (["b.mp3"].filter envEmptyOut.fileExists) ∧
      ((merge_audio_files_ffmpeg envEmptyOut ["b.mp3"]).1 = true ↔
        envEmptyOut.ffmpegRun (["b.mp3"].filter envEmptyOut.fileExists) 60 = .completed 0) ∧
      (primarySucceeded envEmptyOut ["b.mp3"] = true →
        0 < envEmptyOut.fileSize envEmptyOut.tempMergedName) :=
  C7_ffmpeg_boolean_failure envEmptyOut ["b.mp3"] rfl (by decide)

/-- The tail of the audio built from clips after the first one: a 1000 ms
silence before each clip. -/
def silClips : List String → Audio
  | [] => []
  | f :: fs => .silence 1000 :: .clip f :: silClips fs

lemma pydubLoop_pos (env : AudioEnv) (files : List String) :
    ∀ (i : Nat), 0 < i → ∀ (acc : Audio),
      (∀ f ∈ files, env.fileExists f = true) → (∀ f ∈ files, env.decodeOk f = true) →
      pydubLoop env i acc files = acc ++ silClips files := by
  induction files with
  | nil => intro i _ acc _ _; simp [pydubLoop, silClips]
  | cons f fs ih =>
    intro i hi acc hex hdec
    rw [pydubLoop, if_pos (hex f (List.mem_cons_self f fs)),
      if_pos (hdec f (List.mem_cons_self f fs)), if_pos hi,
      ih (i + 1) (Nat.succ_pos i) _ (fun g hg => hex g (List.mem_cons_of_mem f hg))
        (fun g hg => hdec g (List.mem_cons_of_mem f hg))]
    simp [silClips]

lemma pydubCombined_eq (env : AudioEnv) (f : String) (fs : List String)
    (hex : ∀ g ∈ f :: fs, env.fileExists g = true)
    (hdec : ∀ g ∈ f :: fs, env.decodeOk g = true) :
    pydubCombined env (f :: fs) = .clip f :: silClips fs := by
  rw [pydubCombined, pydubLoop, if_pos (hex f (List.mem_cons_self f fs)),
    if_pos (hdec f (List.mem_cons_self f fs)), if_neg (Nat.lt_irrefl 0),
    pydubLoop_pos env fs 1 Nat.one_pos _ (fun g hg => hex g (List.mem_cons_of_mem f hg))
      (fun g hg => hdec g (List.mem_cons_of_mem f hg))]
  rfl

lemma intersperse_clips (f : String) (fs : List String) :
    List.intersperse (Atom.silence 1000) ((f :: fs).map Atom.clip) = .clip f :: silClips fs := by
  induction fs generalizing f with
  | nil => rfl
  | cons g gs ih =>
    rw [List.map_cons, List.map_cons, List.intersperse_cons_cons, silClips]
    have h := ih g
    rw [List.map_cons] at h
    rw [h]

/-- C8: on a non-empty list of existing, decodable clips (of positive
duration), the fallback merge builds exactly the clips in order with one
1000 ms silence between consecutive clips — none before the first or
after the last — and exports it. -/
theorem C8_pydub_fixed_silences (env : AudioEnv) (files : List String)
    (hpd : env.pydubAvailable = true) (hne : files ≠ [])
    (hex : ∀ f ∈ files, env.fileExists f = true)
    (hdec : ∀ f ∈ files, env.decodeOk f = true)
    (hdur : ∀ f ∈ files, 0 < env.clipDuration f) :
    pydubCombined env files = List.intersperse (Atom.silence 1000) (files.map Atom.clip) ∧
      merge_audio_files_pydub env files = some env.pydubExportName := by
  obtain ⟨f, fs, rfl⟩ := List.exists_cons_of_ne_nil hne
  have h1 := pydubCombined_eq env f fs hex hdec
  refine ⟨by rw [h1, intersperse_clips], ?_⟩
  rw [merge_audio_files_pydub, hpd]
  simp only [Bool.not_true, Bool.false_eq_true, if_false]
  rw [if_neg (by simp), if_pos]
  rw [h1, audioLen]
  have := hdur f (List.mem_cons_self f fs)
  omega

/-- Environment where every call succeeds and every clip lasts 1 ms. -/
def envOk : AudioEnv where
  ffmpegAvailable := true
  pydubAvailable := true
  fileExists := fun _ => true
  fileSize := fun _ => 1
  ffmpegRun := fun _ _ => .completed 0
  tts := fun content _ => some (String.mk content)
  decodeOk := fun _ => true
  clipDuration := fun _ => 1
  tempMergedName := "merged.mp3"
  pydubExportName := "pydub.mp3"

/-- Witness for C8 at a concrete environment and clip list. -/
theorem C8_witness :
    pydubCombined envOk ["a.mp3", "b.mp3"] =
        List.intersperse (Atom.silence 1000) ((["a.mp3", "b.mp3"]).map Atom.clip) ∧
      merge_audio_files_pydub envOk ["a.mp3", "b.mp3"] = some envOk.pydubExportName :=
  C8_pydub_fixed_silences envOk ["a.mp3", "b.mp3"] rfl (by decide) (by decide) (by decide)
    (by decide)

lemma sortByIndex_of_sorted (l : List SentenceAudio)
    (h : List.Pairwise (fun a b => a.index < b.index) l) : sortByIndex l = l := by
  induction l with
  | nil => rfl
  | cons x xs ih =>
    rw [sortByIndex, ih (List.Pairwise.of_cons h)]
    cases xs with
    | nil => rfl
    | cons y ys =>
      rw [insertByIndex, if_pos ((List.pairwise_cons.mp h).1 y (List.mem_cons_self y ys))]

lemma generate_multi_shape (env : AudioEnv) (text : List Char) (v1 v2 vt : String)
    (r : MultiVoiceResult)
    (h : generate_multi_voice_audio env text v1 v2 vt = some (.multi r)) :
    ∃ rd, extract_role_dialogues text vt = some rd ∧
      r.sentences = synthLoop env v1 v2 0 rd.sequence ∧
      r.sentences ≠ [] ∧
      r.merged = (mergeStage env (r.sentences.map (·.audio_file))).1 := by
  simp only [generate_multi_voice_audio] at h
  split at h
  · exact Option.noConfusion h
  · split at h
    · split at h
      · split at h
        · cases htts : env.tts (clean_text_for_tts text) v1 <;> rw [htts] at h <;> simp at h
        · exact Option.noConfusion h
      · rename_i rd heq
        split at h
        · exact Option.noConfusion h
        · split at h
          · exact Option.noConfusion h
          · rename_i hsne
            have hr := (GenAudioResult.multi.injEq _ _).mp (Option.some_inj.mp h)
            have hsorted :=
              sortByIndex_of_sorted _ (synthLoop_pairwise env v1 v2 0 rd.sequence)
            refine ⟨rd, heq, ?_, ?_, ?_⟩
            · rw [← hr]; exact hsorted
            · rw [← hr]
              intro hcon
              exact hsne hcon
            · rw [← hr]
    · split at h
      · exact Option.noConfusion h
      · cases htts : env.tts (clean_text_for_tts text)
            (if vt = "ted" then v2 else v1) <;> rw [htts] at h <;> simp at h

/-- C5: whenever a dialogue-type run returns a result, it carries the
non-empty, index-ordered list of per-turn synthesis results (exactly the
synthesis loop over the extracted sequence), and the merged artifact is
present precisely when the primary path produced a non-empty merged file
or the available fallback produced one. -/
theorem C5_result_contract (env : AudioEnv) (text : List Char) (v1 v2 vt : String)
    (r : MultiVoiceResult)
    (h : generate_multi_voice_audio env text v1 v2 vt = some (.multi r)) :
    r.sentences ≠ [] ∧
      List.Pairwise (fun a b => a.index < b.index) r.sentences ∧
      (∃ rd, extract_role_dialogues text vt = some rd ∧
        r.sentences = synthLoop env v1 v2 0 rd.sequence) ∧
      r.merged.isSome =
        (primarySucceeded env (r.sentences.map (·.audio_file)) ||
          (env.pydubAvailable &&
            (merge_audio_files_pydub env (r.sentences.map (·.audio_file))).isSome)) := by
  obtain ⟨rd, hext, hs, hne, hm⟩ := generate_multi_shape env text v1 v2 vt r h
  refine ⟨hne, hs ▸ synthLoop_pairwise env v1 v2 0 rd.sequence, ⟨rd, hext, hs⟩, ?_⟩
  rw [hm, mergeStage]
  cases hp : primarySucceeded env (r.sentences.map (·.audio_file)) <;>
    cases hpd : env.pydubAvailable <;> simp [hp, hpd]

/-- Witness for C5 at a concrete environment and input. -/
theorem C5_witness :
    ([⟨"host", "hi".toList, 0, "hi", "alloy", 0⟩] : List SentenceAudio) ≠ [] ∧
      List.Pairwise (fun a b => a.index < b.index)
        ([⟨"host", "hi".toList, 0, "hi", "alloy", 0⟩] : List SentenceAudio) ∧
      (∃ rd, extract_role_dialogues ("host: hi".toList) "podcast" = some rd ∧
        ([⟨"host", "hi".toList, 0, "hi", "alloy", 0⟩] : List SentenceAudio) =
          synthLoop envOk "alloy" "echo" 0 rd.sequence) ∧
      (some "merged.mp3").isSome =
        (primarySucceeded envOk
            (([⟨"host", "hi".toList, 0, "hi", "alloy", 0⟩] : List SentenceAudio).map
              (·.audio_file)) ||
          (envOk.pydubAvailable &&
            (merge_audio_files_pydub envOk
                (([⟨"host", "hi".toList, 0, "hi", "alloy", 0⟩] : List SentenceAudio).map
                  (·.audio_file))).isSome)) :=
  C5_result_contract envOk ("host: hi".toList) "alloy" "echo" "podcast"
    ⟨[⟨"host", "hi".toList, 0, "hi", "alloy", 0⟩], some "merged.mp3", some "hi", none⟩
    (by decide)

/-! ## Claim about `sanitize_filename` -/

/-- Adjacent characters are not both spaces ("single spaces"). -/
def noTwoSpaces (a b : Char) : Prop := ¬(a = ' ' ∧ b = ' ')

lemma head?_dropWhile_not (p : Char → Bool) (l : List Char) :
    ∀ c, (l.dropWhile p).head? = some c → p c = false := by
  induction l with
  | nil => intro c hc; cases hc
  | cons a t ih =>
    intro c hc
    rw [List.dropWhile_cons] at hc
    by_cases hp : p a = true
    · rw [if_pos hp] at hc; exact ih c hc
    · rw [if_neg hp] at hc
      cases Option.some_inj.mp hc
      exact Bool.eq_false_iff.mpr hp

lemma pyStrip_head_not (l : List Char) (c : Char) (h : (pyStrip l).head? = some c) :
    isPySpace c = false := by
  rw [pyStrip, List.head?_reverse] at h
  obtain ⟨t, ht⟩ :=
    List.dropWhile_suffix (l := (l.dropWhile isPySpace).reverse) isPySpace
  have hBne : (l.dropWhile isPySpace).reverse.dropWhile isPySpace ≠ [] := by
    intro h0; rw [h0] at h; cases h
  have h2 : (l.dropWhile isPySpace).reverse.getLast? = some c := by
    rw [← ht, List.getLast?_append_of_ne_nil t hBne, h]
  rw [List.getLast?_reverse] at h2
  exact head?_dropWhile_not isPySpace l c h2

lemma pyStrip_last_not (l : List Char) (c : Char) (h : (pyStrip l).getLast? = some c) :
    isPySpace c = false := by
  rw [pyStrip, List.getLast?_reverse] at h
  exact head?_dropWhile_not isPySpace _ c h

lemma pyStrip_isInfix (l : List Char) : pyStrip l <:+: l := by
  have h1 : pyStrip l <+: l.dropWhile isPySpace := by
    have h2 := List.reverse_prefix.mpr
      (List.dropWhile_suffix (l := (l.dropWhile isPySpace).reverse) isPySpace)
    rwa [List.reverse_reverse] at h2
  exact h1.isInfix.trans (List.dropWhile_suffix isPySpace).isInfix

lemma pyStrip_length_le (l : List Char) : (pyStrip l).length ≤ l.length :=
  (pyStrip_isInfix l).sublist.length_le

lemma pySplitFuel_words (fuel : Nat) (l : List Char) :
    ∀ w ∈ pySplitFuel fuel l, w ≠ [] ∧ ∀ c ∈ w, c ∈ l ∧ isPySpace c = false := by
  induction fuel generalizing l with
  | zero => intro w hw; cases hw
  | succ fuel ih =>
    intro w hw
    cases l with
    | nil => cases hw
    | cons c rest =>
      rw [pySplitFuel] at hw
      by_cases hc : isPySpace c = true
      · rw [if_pos hc] at hw
        obtain ⟨h1, h2⟩ := ih rest w hw
        exact ⟨h1, fun d hd => ⟨List.mem_cons_of_mem c (h2 d hd).1, (h2 d hd).2⟩⟩
      · rw [if_neg hc] at hw
        rcases List.mem_cons.mp hw with rfl | hw'
        · refine ⟨by simp, fun d hd => ?_⟩
          rcases List.mem_cons.mp hd with rfl | hd'
          · exact ⟨List.mem_cons_self d rest, Bool.eq_false_iff.mpr hc⟩
          · have hmem : d ∈ rest := (List.takeWhile_prefix _).subset hd'
            have hp := List.mem_takeWhile_imp hd'
            rw [Bool.not_eq_true'] at hp
            exact ⟨List.mem_cons_of_mem c hmem, hp⟩
        · obtain ⟨h1, h2⟩ := ih _ w hw'
          refine ⟨h1, fun d hd => ?_⟩
          obtain ⟨hd1, hd2⟩ := h2 d hd
          exact ⟨List.mem_cons_of_mem c ((List.dropWhile_suffix _).sublist.subset hd1), hd2⟩

lemma joinSpace_cons_cons (w w2 : List Char) (ws : List (List Char)) :
    joinSpace (w :: w2 :: ws) = w ++ ' ' :: joinSpace (w2 :: ws) := rfl

lemma joinSpace_mem (ws : List (List Char)) (c : Char) (h : c ∈ joinSpace ws) :
    c = ' ' ∨ ∃ w ∈ ws, c ∈ w := by
  induction ws with
  | nil => cases h
  | cons w ws2 ih =>
    cases ws2 with
    | nil => exact Or.inr ⟨w, List.mem_cons_self w [], h⟩
    | cons w2 ws3 =>
      rw [joinSpace_cons_cons] at h
      rcases List.mem_append.mp h with h1 | h1
      · exact Or.inr ⟨w, List.mem_cons_self w _, h1⟩
      · rcases List.mem_cons.mp h1 with rfl | h2
        · exact Or.inl rfl
        · rcases ih h2 with h3 | ⟨w', hw', hc⟩
          · exact Or.inl h3
          · exact Or.inr ⟨w', List.mem_cons_of_mem w hw', hc⟩

lemma joinSpace_head? (w : List Char) (ws : List (List Char)) (hw : w ≠ []) :
    (joinSpace (w :: ws)).head? = w.head? := by
  cases ws with
  | nil => rfl
  | cons w2 ws2 =>
    rw [joinSpace_cons_cons]
    cases w with
    | nil => exact absurd rfl hw
    | cons a t => rfl

lemma chain'_noTwoSpaces_of_no_space (l : List Char) (h : ∀ c ∈ l, c ≠ ' ') :
    List.Chain' noTwoSpaces l := by
  induction l with
  | nil => exact List.chain'_nil
  | cons a t ih =>
    cases t with
    | nil => exact List.chain'_singleton a
    | cons b u =>
      refine List.chain'_cons.mpr ⟨fun hab => h a (List.mem_cons_self a _) hab.1, ih ?_⟩
      exact fun c hc => h c (List.mem_cons_of_mem a hc)

lemma mem_of_getLast?_aux {l : List Char} {c : Char} (h : c ∈ l.getLast?) : c ∈ l := by
  obtain ⟨hne, rfl⟩ := List.mem_getLast?_eq_getLast h
  exact List.getLast_mem hne

lemma chain'_joinSpace (ws : List (List Char))
    (hw : ∀ w ∈ ws, w ≠ [] ∧ ∀ c ∈ w, c ≠ ' ') :
    List.Chain' noTwoSpaces (joinSpace ws) := by
  induction ws with
  | nil => exact List.chain'_nil
  | cons w ws2 ih =>
    cases ws2 with
    | nil =>
      exact chain'_noTwoSpaces_of_no_space w (hw w (List.mem_cons_self w [])).2
    | cons w2 ws3 =>
      rw [joinSpace_cons_cons, List.chain'_append]
      refine ⟨chain'_noTwoSpaces_of_no_space w (hw w (List.mem_cons_self w _)).2, ?_, ?_⟩
      · rw [List.chain'_cons']
        constructor
        · intro y hy
          rw [joinSpace_head? w2 ws3 (hw w2 (List.mem_cons_of_mem w (List.mem_cons_self w2 ws3))).1] at hy
          intro hc
          exact (hw w2 (List.mem_cons_of_mem w (List.mem_cons_self w2 ws3))).2 y
            (List.mem_of_mem_head? hy) hc.2
        · exact ih (fun w' hw' => hw w' (List.mem_cons_of_mem w hw'))
      · intro x hx y hy
        intro hc
        exact (hw w (List.mem_cons_self w _)).2 x (mem_of_getLast?_aux hx) hc.1

lemma pySplitFuel_all_space (fuel : Nat) (l : List Char)
    (h : ∀ c ∈ l, isPySpace c = true) : pySplitFuel fuel l = [] := by
  induction fuel generalizing l with
  | zero => rfl
  | succ fuel ih =>
    cases l with
    | nil => rfl
    | cons c rest =>
      rw [pySplitFuel, if_pos (h c (List.mem_cons_self c rest))]
      exact ih rest (fun d hd => h d (List.mem_cons_of_mem c hd))

/-- C9: `sanitize_filename` always returns a non-empty string of at most
50 characters over the safe alphabet, with no leading or trailing space
and no two consecutive spaces; and whenever nothing safe remains (every
safe character of the input is a space), it returns "Untitled". -/
theorem C9_sanitize_contract (s : List Char) :
    sanitize_filename s ≠ [] ∧
      (sanitize_filename s).length ≤ 50 ∧
      (∀ c ∈ sanitize_filename s, c ∈ safeChars) ∧
      (sanitize_filename s).head? ≠ some ' ' ∧
      (sanitize_filename s).getLast? ≠ some ' ' ∧
      List.Chain' noTwoSpaces (sanitize_filename s) ∧
      ((∀ c ∈ s, c ∈ safeChars → c = ' ') → sanitize_filename s = "Untitled".toList) := by
  have huntitled :
      (∀ c ∈ s, c ∈ safeChars → c = ' ') →
        pyStrip ((joinSpace (pySplit (s.filter (fun c => safeChars.contains c)))).take 50) =
          [] := by
    intro hall
    have hsplit : pySplit (s.filter (fun c => safeChars.contains c)) = [] := by
      refine pySplitFuel_all_space _ _ (fun c hc => ?_)
      rw [List.mem_filter] at hc
      have hmem : c ∈ safeChars := by simpa using hc.2
      rw [hall c hc.1 hmem]
      rfl
    rw [hsplit]
    rfl
  rw [sanitize_filename]
  by_cases h0 :
      pyStrip ((joinSpace (pySplit (s.filter (fun c => safeChars.contains c)))).take 50) = []
  · rw [if_pos h0]
    refine ⟨by decide, by decide, by decide, by decide, by decide, ?_, fun _ => rfl⟩
    exact chain'_noTwoSpaces_of_no_space _ (by decide)
  · rw [if_neg h0]
    have hwords := pySplitFuel_words (s.filter (fun c => safeChars.contains c)).length
      (s.filter (fun c => safeChars.contains c))
    have hchainJ :
        List.Chain' noTwoSpaces
          (joinSpace (pySplit (s.filter (fun c => safeChars.contains c)))) := by
      refine chain'_joinSpace _ (fun w hw => ⟨(hwords w hw).1, fun c hc hceq => ?_⟩)
      have h2 := ((hwords w hw).2 c hc).2
      rw [hceq] at h2
      exact absurd h2 (by decide)
    refine ⟨h0, ?_, ?_, ?_, ?_, ?_, fun hall => absurd (huntitled hall) h0⟩
    · refine le_trans (pyStrip_length_le _) ?_
      rw [List.length_take]
      exact min_le_left _ _
    · intro c hc
      have hc1 : c ∈ (joinSpace (pySplit (s.filter (fun c => safeChars.contains c)))).take 50 :=
        (pyStrip_isInfix _).sublist.subset hc
      have hc2 := (List.take_prefix 50 _).subset hc1
      rcases joinSpace_mem _ c hc2 with rfl | ⟨w, hw, hcw⟩
      · decide
      · have h3 := ((hwords w hw).2 c hcw).1
        rw [List.mem_filter] at h3
        simpa using h3.2
    · intro hc
      have := pyStrip_head_not _ ' ' hc
      exact absurd this (by decide)
    · intro hc
      have := pyStrip_last_not _ ' ' hc
      exact absurd this (by decide)
    · exact List.Chain'.infix ( List.Chain'.prefix hchainJ (List.take_prefix 50 _))
        (pyStrip_isInfix _)

end MyTalk
